import Mathlib

/-!
Shallow embedding of the ShoppingList view component (src/src/components/ShoppingList.js,
the authoritative sorted variant; src/unnamed/part_000 is the earlier unsorted variant
that the specification supersedes).

Items and category rows are embedded as Lean structures; the derived view computations
(getItemsByCategory, getNeededItemsCount, getBoughtItemsCount, visibleCategories, the
resolved category list built in fetchCategories) are embedded as pure functions over the
locally held item list.  Mutating handlers (addCategory, addItem, toggleNeeded,
toggleBought, resetShopping) are embedded as pure state transformers that also return the
remote call they issue (an Option: none means no remote call was issued).  The remote
database itself and the refetch-on-success step are outside the model; the returned call
value records exactly what the component would send.

The JavaScript comparator
  (a, b) => a.name.toLowerCase().localeCompare(b.name.toLowerCase())
is embedded as the relation itemOrder on lowercased names, and Array.prototype.sort
(stable since ES2019) is embedded as the stable List.insertionSort.
-/

namespace ShoppingApp

/-- A shopping item row as fetched from the shopping_items table.  The created_at column
is used only as the fetch ordering and is represented by the position in the fetched
list, so it is not a separate field here. -/
structure Item where
  id : Nat
  name : String
  category : String
  needed : Bool
  bought : Bool
  user_id : String
deriving DecidableEq, Repr

/-- Model of the JavaScript String.prototype.toLowerCase builtin: lower-case every
character.  Defined structurally over the character list so that it evaluates inside the
kernel. -/
def jsToLower (s : String) : String :=
  ⟨s.data.map Char.toLower⟩

/-- Model of the JavaScript String.prototype.trim builtin: drop whitespace from both
ends.  Defined structurally over the character list so that it evaluates inside the
kernel. -/
def jsTrim (s : String) : String :=
  ⟨((s.data.dropWhile Char.isWhitespace).reverse.dropWhile Char.isWhitespace).reverse⟩

/-- Lexicographic less-or-equal on character lists by code point, modelling a
nonpositive result of the localeCompare comparator (locale collation is approximated by
code-point order).  Defined structurally so that it evaluates inside the kernel. -/
def charListLe : List Char → List Char → Bool
  | [], _ => true
  | _ :: _, [] => false
  | a :: as, b :: bs => if a < b then true else if b < a then false else charListLe as bs

theorem charListLe_total : ∀ x y : List Char, charListLe x y = true ∨ charListLe y x = true
  | [], _ => Or.inl rfl
  | _ :: _, [] => Or.inr rfl
  | a :: as, b :: bs => by
    rcases lt_trichotomy a b with hab | hab | hab
    · exact Or.inl (by simp [charListLe, hab])
    · subst hab
      rcases charListLe_total as bs with h | h
      · exact Or.inl (by simp [charListLe, lt_irrefl, h])
      · exact Or.inr (by simp [charListLe, lt_irrefl, h])
    · exact Or.inr (by simp [charListLe, hab])

theorem charListLe_trans : ∀ {x y z : List Char}, charListLe x y = true →
    charListLe y z = true → charListLe x z = true
  | [], _, _, _, _ => rfl
  | _ :: _, [], _, hxy, _ => by simp [charListLe] at hxy
  | _ :: _, _ :: _, [], _, hyz => by simp [charListLe] at hyz
  | a :: as, b :: bs, c :: cs, hxy, hyz => by
    by_cases hab : a < b
    · by_cases hbc : b < c
      · simp [charListLe, lt_trans hab hbc]
      · by_cases hcb : c < b
        · simp [charListLe, hbc, hcb] at hyz
        · have hbc' : b = c := le_antisymm (not_lt.mp hcb) (not_lt.mp hbc)
          subst hbc'
          simp [charListLe, hab]
    · by_cases hba : b < a
      · simp [charListLe, hab, hba] at hxy
      · have hab' : a = b := le_antisymm (not_lt.mp hba) (not_lt.mp hab)
        subst hab'
        simp only [charListLe, lt_irrefl, if_false] at hxy
        by_cases hbc : a < c
        · simp [charListLe, hbc]
        · by_cases hcb : c < a
          · simp [charListLe, hbc, hcb] at hyz
          · have hbc' : a = c := le_antisymm (not_lt.mp hcb) (not_lt.mp hbc)
            subst hbc'
            simp only [charListLe, lt_irrefl, if_false] at hyz ⊢
            exact charListLe_trans hxy hyz

/-- The sort relation used by getItemsByCategory: compare names case-insensitively,
embedding the comparator a.name.toLowerCase().localeCompare(b.name.toLowerCase()), with
locale collation modelled by lexicographic code-point order. -/
def itemOrder (a b : Item) : Prop :=
  charListLe (jsToLower a.name).data (jsToLower b.name).data = true

instance : DecidableRel itemOrder :=
  fun a b =>
    inferInstanceAs
      (Decidable (charListLe (jsToLower a.name).data (jsToLower b.name).data = true))

instance : IsTotal Item itemOrder :=
  ⟨fun a b => charListLe_total (jsToLower a.name).data (jsToLower b.name).data⟩

instance : IsTrans Item itemOrder :=
  ⟨fun _ _ _ hab hbc => charListLe_trans hab hbc⟩

/-- The defaultCategories constant of the authoritative variant: built-in category names
that are always available, in their fixed order. -/
def defaultCategories : List String :=
  ["Refrigerated items", "Bread", "Fruit/Veggie", "Frozen", "Bulk", "Household items"]

/-- The category-list resolution performed by fetchCategories on the fetched custom
category names: default categories first, then the user categories that are not already
among the defaults, in fetched (creation) order. -/
def allCategories (userCategories : List String) : List String :=
  defaultCategories ++ userCategories.filter (fun cat => !defaultCategories.contains cat)

/-- getItemsByCategory: in store mode keep only items of the category that are needed,
in plan mode keep all items of the category; then sort by the case-insensitive name
comparator.  The storeMode flag is passed explicitly (in the source it is component
state read by the closure). -/
def getItemsByCategory (storeMode : Bool) (items : List Item) (category : String) :
    List Item :=
  let filteredItems :=
    if storeMode then
      items.filter (fun item => item.category == category && item.needed)
    else
      items.filter (fun item => item.category == category)
  filteredItems.insertionSort itemOrder

/-- getNeededItemsCount: items marked needed and not yet bought, across all categories. -/
def getNeededItemsCount (items : List Item) : Nat :=
  (items.filter (fun item => item.needed && !item.bought)).length

/-- getBoughtItemsCount: items marked needed and already bought, across all categories. -/
def getBoughtItemsCount (items : List Item) : Nat :=
  (items.filter (fun item => item.needed && item.bought)).length

/-- visibleCategories: keep a category when its mode-filtered item list is non-empty or
the component is not in store mode. -/
def visibleCategories (storeMode : Bool) (items : List Item) (categories : List String) :
    List String :=
  categories.filter (fun category =>
    decide ((getItemsByCategory storeMode items category).length > 0) || !storeMode)

/-- The local UI state held by the component that the mutating handlers read and write:
the item list, the resolved category-name list, the per-category pending new-item texts
(the newItemInputs object, embedded as an association list keyed by category name), the
collapsed category names, the store-mode flag, the add-category form flag and its pending
name text. -/
structure ComponentState where
  items : List Item
  categories : List String
  newItemInputs : List (String × String)
  collapsedCategories : List String
  storeMode : Bool
  showAddCategory : Bool
  newCategoryName : String
deriving DecidableEq, Repr

/-- A row as sent to the insert call on the categories table. -/
structure CategoryRow where
  name : String
  user_id : String
deriving DecidableEq, Repr

/-- A row as sent to the insert call on the shopping_items table. -/
structure ItemRow where
  name : String
  category : String
  needed : Bool
  bought : Bool
  user_id : String
deriving DecidableEq, Repr

/-- The patch sent to an update call on the shopping_items table, together with the two
eq filters (row id and user id) that scope it.  A field left none is not part of the
patch object. -/
structure UpdateCall where
  id : Nat
  user_id : String
  needed : Option Bool
  bought : Option Bool
deriving DecidableEq, Repr

/-- Reading newItemInputs[category] with the JavaScript fallback (|| gives the empty
string when the key is absent, and the stored empty string is itself falsy, so the two
readings agree). -/
def getInput (inputs : List (String × String)) (category : String) : String :=
  (inputs.lookup category).getD ""

/-- Writing a key of the newItemInputs object by spread ({ ...inputs, [category]: value }):
an existing key keeps its position, a new key is appended. -/
def setInput : List (String × String) → String → String → List (String × String)
  | [], category, value => [(category, value)]
  | (k, v) :: rest, category, value =>
    if k == category then (k, value) :: rest
    else (k, v) :: setInput rest category value

/-- addCategory: a no-op when the trimmed pending name is empty (falsy) or is already in
the resolved category list; otherwise it issues the insert of the trimmed name scoped to
the owner, clears the pending name and closes the form.  The post-insert refetch of the
categories collection is remote state outside this model. -/
def addCategory (uid : String) (s : ComponentState) :
    ComponentState × Option CategoryRow :=
  if jsTrim s.newCategoryName == "" || s.categories.contains (jsTrim s.newCategoryName) then
    (s, none)
  else
    ({ s with newCategoryName := "", showAddCategory := false },
      some { name := jsTrim s.newCategoryName, user_id := uid })

/-- addItem: reads the pending input of the category; a no-op when its trimmed value is
empty, otherwise issues the insert of one item row (trimmed name, the given category,
needed and bought false, scoped to the owner) and clears that category input.  The
post-insert refetch of the items collection is remote state outside this model. -/
def addItem (uid : String) (s : ComponentState) (category : String) :
    ComponentState × Option ItemRow :=
  let inputValue := getInput s.newItemInputs category
  if jsTrim inputValue == "" then (s, none)
  else
    ({ s with newItemInputs := setInput s.newItemInputs category "" },
      some { name := jsTrim inputValue, category := category, needed := false,
             bought := false, user_id := uid })

/-- The per-row effect of the update call update(needed := value).eq(id).eq(user_id)
as seen through the refetch: a row matching both eq filters takes the patched needed
value, any other row is unchanged. -/
def applyNeededPatch (uid : String) (id : Nat) (value : Bool) (i : Item) : Item :=
  if i.id == id && i.user_id == uid then { i with needed := value } else i

/-- The per-row effect of the update call update(bought := value).eq(id).eq(user_id)
as seen through the refetch. -/
def applyBoughtPatch (uid : String) (id : Nat) (value : Bool) (i : Item) : Item :=
  if i.id == id && i.user_id == uid then { i with bought := value } else i

/-- toggleNeeded: look the item up locally by id; absent means no remote call and no
change.  Present means issue the update patch needed := not current, scoped to the row id
and the owner; the item list after the refetch is the local list with that patch applied
to the rows matching both filters. -/
def toggleNeeded (uid : String) (items : List Item) (id : Nat) :
    List Item × Option UpdateCall :=
  match items.find? (fun item => item.id == id) with
  | none => (items, none)
  | some item =>
    (items.map (applyNeededPatch uid id (!item.needed)),
      some { id := id, user_id := uid, needed := some (!item.needed), bought := none })

/-- toggleBought: same shape as toggleNeeded but flipping the bought flag. -/
def toggleBought (uid : String) (items : List Item) (id : Nat) :
    List Item × Option UpdateCall :=
  match items.find? (fun item => item.id == id) with
  | none => (items, none)
  | some item =>
    (items.map (applyBoughtPatch uid id (!item.bought)),
      some { id := id, user_id := uid, needed := none, bought := some (!item.bought) })

/-- resetShopping: issue one update setting needed and bought to false on every row of
the current owner, and leave store mode.  The storeMode argument is the prior mode; the
returned Bool is the mode after the operation (the handler sets it to false
unconditionally). -/
def resetShopping (uid : String) (items : List Item) (storeMode : Bool) :
    List Item × Bool :=
  (items.map (fun i =>
      if i.user_id == uid then { i with needed := false, bought := false } else i),
    false)

/-! Helper lemmas: filtering commutes with the stable sort.  These are generic list
lemmas used to relate the store-mode and plan-mode results of getItemsByCategory. -/

/-- Inserting an element all of whose comparisons succeed puts it in front. -/
theorem orderedInsert_eq_cons {α : Type} (r : α → α → Prop) [DecidableRel r] (a : α)
    (l : List α) (h : ∀ b ∈ l, r a b) : l.orderedInsert r a = a :: l := by
  cases l with
  | nil => rfl
  | cons b t =>
    simp [List.orderedInsert, h b (List.mem_cons_self b t)]

/-- Filtering past an ordered insert of a kept element, over a sorted list. -/
theorem filter_orderedInsert_pos {α : Type} (r : α → α → Prop) [DecidableRel r]
    [IsTrans α r] (p : α → Bool) (a : α) (ha : p a = true) :
    ∀ l : List α, l.Sorted r →
      (l.orderedInsert r a).filter p = (l.filter p).orderedInsert r a := by
  intro l
  induction l with
  | nil => simp [List.orderedInsert, ha]
  | cons b t ih =>
    intro hs
    have hbt : ∀ c ∈ t, r b c := List.rel_of_sorted_cons hs
    by_cases hab : r a b
    · rw [List.orderedInsert_of_le r _ hab]
      by_cases hpb : p b = true
      · simp only [List.filter_cons, ha, hpb, if_pos]
        rw [List.orderedInsert_of_le r _ hab]
      · simp only [List.filter_cons, ha, hpb, Bool.false_eq_true, if_false, if_pos]
        have : ∀ c ∈ t.filter p, r a c := by
          intro c hc
          exact Trans.trans hab (hbt c (List.mem_of_mem_filter hc))
        rw [orderedInsert_eq_cons r a _ this]
    · simp only [List.orderedInsert, if_neg hab]
      by_cases hpb : p b = true
      · simp only [List.filter_cons, hpb, if_pos]
        rw [List.orderedInsert, if_neg hab, ih hs.of_cons]
      · simp only [List.filter_cons, hpb, Bool.false_eq_true, if_false]
        exact ih hs.of_cons

/-- Filtering away an ordered insert of a dropped element. -/
theorem filter_orderedInsert_neg {α : Type} (r : α → α → Prop) [DecidableRel r]
    (p : α → Bool) (a : α) (ha : p a = false) :
    ∀ l : List α, (l.orderedInsert r a).filter p = l.filter p := by
  intro l
  induction l with
  | nil => simp [List.orderedInsert, ha]
  | cons b t ih =>
    by_cases hab : r a b
    · rw [List.orderedInsert_of_le r _ hab]
      simp [List.filter_cons, ha]
    · simp only [List.orderedInsert, if_neg hab, List.filter_cons, ih]

/-- Filtering commutes with the stable insertion sort. -/
theorem filter_insertionSort {α : Type} (r : α → α → Prop) [DecidableRel r]
    [IsTotal α r] [IsTrans α r] (p : α → Bool) :
    ∀ l : List α, (l.insertionSort r).filter p = (l.filter p).insertionSort r := by
  intro l
  induction l with
  | nil => rfl
  | cons a t ih =>
    by_cases hpa : p a = true
    · simp only [List.insertionSort, List.filter_cons, hpa, if_pos]
      rw [filter_orderedInsert_pos r p a hpa _ (List.sorted_insertionSort r t), ih]
    · have hpa' : p a = false := Bool.eq_false_iff.mpr hpa
      simp only [List.insertionSort, List.filter_cons, hpa', Bool.false_eq_true, if_false]
      rw [filter_orderedInsert_neg r p a hpa', ih]

/-- C1: in plan mode (storeMode false), getItemsByCategory returns exactly the items
whose category field equals the requested category name, compared case-sensitively (the
result is a permutation of that filter, and membership in the result is exactly
membership in the item list together with category equality), and the result is sorted
ascending by name compared case-insensitively. -/
theorem plan_mode_items_for_category (items : List Item) (c : String) :
    (getItemsByCategory false items c).Perm
      (items.filter (fun item => item.category == c)) ∧
    (∀ item : Item, item ∈ getItemsByCategory false items c ↔
      item ∈ items ∧ item.category = c) ∧
    (getItemsByCategory false items c).Sorted
      (fun a b => charListLe (jsToLower a.name).data (jsToLower b.name).data = true) := by
  refine ⟨?_, ?_, ?_⟩
  · exact List.perm_insertionSort itemOrder
      (items.filter (fun item => item.category == c))
  · intro item
    have hmem := (List.perm_insertionSort itemOrder
      (items.filter (fun item => item.category == c))).mem_iff (a := item)
    simp only [getItemsByCategory, Bool.false_eq_true, if_false]
    rw [hmem, List.mem_filter]
    simp
  · exact List.sorted_insertionSort itemOrder
      (items.filter (fun item => item.category == c))

/-- C9: the store-mode result of getItemsByCategory equals the plan-mode result
restricted to the items with needed true, in the same sort order, and is therefore a
sublist of the plan-mode result. -/
theorem store_mode_restricts_plan_mode (items : List Item) (c : String) :
    getItemsByCategory true items c =
      (getItemsByCategory false items c).filter (fun item => item.needed) ∧
    (getItemsByCategory true items c).Sublist (getItemsByCategory false items c) := by
  have hff : (items.filter (fun item => item.category == c)).filter
        (fun item => item.needed)
      = items.filter (fun item => item.category == c && item.needed) := by
    rw [List.filter_filter]
    exact List.filter_congr (fun x _ => Bool.and_comm _ _)
  have h : getItemsByCategory true items c =
      (getItemsByCategory false items c).filter (fun item => item.needed) := by
    show (items.filter (fun item => item.category == c && item.needed)).insertionSort
        itemOrder
      = ((items.filter (fun item => item.category == c)).insertionSort itemOrder).filter
          (fun item => item.needed)
    rw [filter_insertionSort itemOrder (fun item => item.needed)
      (items.filter (fun item => item.category == c)), hff]
  refine ⟨h, ?_⟩
  rw [h]
  exact List.filter_sublist _

/-- C2 counterexample: when the fetched custom-name list itself repeats a name that is
not among the built-ins, the code keeps both copies, so the resolved list for that
fetched list has a duplicate and the claim fails as universally stated. -/
theorem allCategories_duplicate_input_counterexample :
    ¬ (allCategories ["Snacks", "Snacks"]).Nodup := by decide

/-- C2 (amended): provided the fetched user-created names are pairwise distinct (the
uniqueness invariant of the custom category set of an owner), the resolved list is
the built-in names in their fixed order followed by the user-created names not among the
built-ins in creation order, and it contains no duplicate names. -/
theorem allCategories_resolution (userCategories : List String)
    (h : userCategories.Nodup) :
    (allCategories userCategories).take defaultCategories.length = defaultCategories ∧
    (allCategories userCategories).drop defaultCategories.length =
      userCategories.filter (fun cat => !defaultCategories.contains cat) ∧
    (allCategories userCategories).Nodup := by
  refine ⟨List.take_left _ _, List.drop_left _ _, ?_⟩
  rw [allCategories, List.nodup_append]
  refine ⟨by decide, h.filter _, ?_⟩
  intro a ha hb
  have hp := List.of_mem_filter hb
  simp only [Bool.not_eq_true'] at hp
  have : a ∈ defaultCategories := ha
  rw [← List.elem_iff] at this
  exact absurd (hp.symm.trans this) (by decide)

/-- C2 witness: the amended theorem applied to the concrete fetched list
containing only the name Snacks. -/
theorem allCategories_resolution_witness :
    (allCategories ["Snacks"]).take defaultCategories.length = defaultCategories ∧
    (allCategories ["Snacks"]).drop defaultCategories.length =
      ["Snacks"].filter (fun cat => !defaultCategories.contains cat) ∧
    (allCategories ["Snacks"]).Nodup :=
  allCategories_resolution ["Snacks"] (by decide)

/-- C3: in store mode the visible category list is exactly the categories having at
least one needed item, kept in resolved-list order; in plan mode it is the full resolved
list; and in store mode with no needed item anywhere it is empty. -/
theorem visible_categories_by_mode (items : List Item) (categories : List String) :
    visibleCategories true items categories =
      categories.filter
        (fun c => items.any (fun item => item.category == c && item.needed)) ∧
    visibleCategories false items categories = categories ∧
    (items.all (fun item => !item.needed) = true →
      visibleCategories true items categories = []) := by
  have h1 : visibleCategories true items categories =
      categories.filter
        (fun c => items.any (fun item => item.category == c && item.needed)) := by
    apply List.filter_congr
    intro c _
    have hlen : (getItemsByCategory true items c).length
        = (items.filter (fun item => item.category == c && item.needed)).length :=
      List.length_insertionSort itemOrder _
    rw [Bool.not_true, Bool.or_false, Bool.eq_iff_iff, decide_eq_true_eq, hlen,
      List.any_eq_true]
    constructor
    · intro hpos
      obtain ⟨x, hx⟩ := List.exists_mem_of_length_pos hpos
      exact ⟨x, (List.mem_filter.mp hx).1, (List.mem_filter.mp hx).2⟩
    · intro ⟨x, hx, hpx⟩
      exact List.length_pos_of_mem (List.mem_filter.mpr ⟨hx, hpx⟩)
  refine ⟨h1, ?_, ?_⟩
  · apply List.filter_eq_self.mpr
    intro c _
    simp
  · intro hall
    rw [h1]
    rw [List.all_eq_true] at hall
    apply List.filter_eq_nil_iff.mpr
    intro c _
    intro hany
    rw [List.any_eq_true] at hany
    obtain ⟨x, hx, hpx⟩ := hany
    have := hall x hx
    rw [Bool.not_eq_true'] at this
    rw [Bool.and_eq_true, this] at hpx
    exact Bool.false_ne_true hpx.2

/-- C3 witness: the empty-store-visibility part applied to a concrete list with a single
item that is not needed. -/
theorem visible_categories_by_mode_witness :
    visibleCategories true [⟨1, "banana", "Fruit/Veggie", false, false, "u1"⟩]
      ["Bread", "Fruit/Veggie"] = [] :=
  (visible_categories_by_mode [⟨1, "banana", "Fruit/Veggie", false, false, "u1"⟩]
    ["Bread", "Fruit/Veggie"]).2.2 (by decide)

/-- C4: getNeededItemsCount counts exactly the items with needed true and bought false,
getBoughtItemsCount counts exactly the items with needed true and bought true, and the
two add up to the number of items with needed true.  Both functions read only the item
list, so they are independent of category and mode by construction. -/
theorem needed_and_bought_counts (items : List Item) :
    getNeededItemsCount items =
      items.countP (fun item => item.needed && !item.bought) ∧
    getBoughtItemsCount items =
      items.countP (fun item => item.needed && item.bought) ∧
    getNeededItemsCount items + getBoughtItemsCount items =
      items.countP (fun item => item.needed) := by
  refine ⟨(List.countP_eq_length_filter _ _).symm,
    (List.countP_eq_length_filter _ _).symm, ?_⟩
  rw [getNeededItemsCount, getBoughtItemsCount, ← List.countP_eq_length_filter,
    ← List.countP_eq_length_filter]
  induction items with
  | nil => rfl
  | cons a t ih =>
    rw [List.countP_cons, List.countP_cons, List.countP_cons]
    cases ha : a.needed <;> cases hb : a.bought <;> simp [ha, hb] <;> omega

/-- C5: resetShopping forces plan mode regardless of the prior mode, and every item of
the current owner in the resulting list has needed false and bought false. -/
theorem reset_shopping_clears_owned (uid : String) (items : List Item)
    (storeMode : Bool) (item : Item)
    (hmem : item ∈ (resetShopping uid items storeMode).1)
    (howner : item.user_id = uid) :
    item.needed = false ∧ item.bought = false ∧
    (resetShopping uid items storeMode).2 = false := by
  simp only [resetShopping, List.mem_map] at hmem
  obtain ⟨a, _, rfl⟩ := hmem
  by_cases hu : (a.user_id == uid) = true
  · refine ⟨?_, ?_, rfl⟩ <;> simp [hu]
  · exfalso
    apply hu
    rw [if_neg hu] at howner
    exact beq_iff_eq.mpr howner

/-- C5 witness: the theorem applied to a concrete one-item state entered from store
mode. -/
theorem reset_shopping_clears_owned_witness :
    (⟨1, "Milk", "Bread", false, false, "u1"⟩ : Item).needed = false ∧
    (⟨1, "Milk", "Bread", false, false, "u1"⟩ : Item).bought = false ∧
    (resetShopping "u1" [⟨1, "Milk", "Bread", true, true, "u1"⟩] true).2 = false :=
  reset_shopping_clears_owned "u1" [⟨1, "Milk", "Bread", true, true, "u1"⟩] true
    ⟨1, "Milk", "Bread", false, false, "u1"⟩ (by decide) (by decide)

/-- C6: addCategory issues no insert and leaves the whole state unchanged when the
trimmed pending name is empty or already present in the resolved category list by
case-sensitive exact match; otherwise it issues exactly the insert of the trimmed name
scoped to the owner, clears the pending name and closes the form. -/
theorem add_category_guard (uid : String) (s : ComponentState) :
    (jsTrim s.newCategoryName = "" ∨ jsTrim s.newCategoryName ∈ s.categories →
      addCategory uid s = (s, none)) ∧
    (jsTrim s.newCategoryName ≠ "" → jsTrim s.newCategoryName ∉ s.categories →
      addCategory uid s =
        ({ s with newCategoryName := "", showAddCategory := false },
          some { name := jsTrim s.newCategoryName, user_id := uid })) := by
  constructor
  · intro h
    rw [addCategory, if_pos]
    rw [Bool.or_eq_true]
    rcases h with h | h
    · exact Or.inl (beq_iff_eq.mpr h)
    · exact Or.inr (List.elem_iff.mpr h)
  · intro h1 h2
    rw [addCategory, if_neg]
    rw [Bool.or_eq_true]
    rintro (h | h)
    · exact h1 (beq_iff_eq.mp h)
    · exact h2 (List.elem_iff.mp h)

/-- C6 witness: the insert branch of the theorem applied to a concrete state whose
pending name trims to a new category name. -/
theorem add_category_guard_witness :
    addCategory "u1" ⟨[], ["Bread"], [], [], false, true, " Snacks "⟩ =
      ({ (⟨[], ["Bread"], [], [], false, true, " Snacks "⟩ : ComponentState) with
          newCategoryName := "", showAddCategory := false },
        some { name := jsTrim " Snacks ", user_id := "u1" }) :=
  (add_category_guard "u1" ⟨[], ["Bread"], [], [], false, true, " Snacks "⟩).2
    (by decide) (by decide)

/-- Looking a key up right after writing it yields the written value. -/
theorem getInput_setInput (inputs : List (String × String)) (category value : String) :
    getInput (setInput inputs category value) category = value := by
  induction inputs with
  | nil => simp [getInput, setInput, List.lookup]
  | cons kv rest ih =>
    obtain ⟨k, v⟩ := kv
    by_cases h : (k == category) = true
    · have hck : (category == k) = true := beq_iff_eq.mpr (beq_iff_eq.mp h).symm
      simp [setInput, h, getInput, List.lookup, hck]
    · have hck : (category == k) = false := by
        rw [Bool.eq_false_iff]
        intro hc
        exact h (beq_iff_eq.mpr (beq_iff_eq.mp hc).symm)
      simp only [setInput, h, Bool.false_eq_true, if_false]
      simpa [getInput, List.lookup, hck] using ih

/-- C7: when the trimmed pending input of the category is empty, addItem issues no
insert and changes nothing; otherwise it issues exactly one insert of an item row with
the trimmed input as name, the given category, needed and bought false, scoped to the
owner, and the pending input of that category reads as empty afterwards. -/
theorem add_item_behavior (uid : String) (s : ComponentState) (category : String) :
    (jsTrim (getInput s.newItemInputs category) = "" →
      addItem uid s category = (s, none)) ∧
    (jsTrim (getInput s.newItemInputs category) ≠ "" →
      addItem uid s category =
        ({ s with newItemInputs := setInput s.newItemInputs category "" },
          some { name := jsTrim (getInput s.newItemInputs category),
                 category := category, needed := false, bought := false,
                 user_id := uid }) ∧
      getInput (addItem uid s category).1.newItemInputs category = "") := by
  constructor
  · intro h
    rw [addItem]
    simp only [if_pos (beq_iff_eq.mpr h)]
  · intro h
    have hcond : (jsTrim (getInput s.newItemInputs category) == "") = false := by
      rw [Bool.eq_false_iff]
      intro hc
      exact h (beq_iff_eq.mp hc)
    have heq : addItem uid s category =
        ({ s with newItemInputs := setInput s.newItemInputs category "" },
          some { name := jsTrim (getInput s.newItemInputs category),
                 category := category, needed := false, bought := false,
                 user_id := uid }) := by
      rw [addItem]
      simp only [hcond, Bool.false_eq_true, if_false]
    refine ⟨heq, ?_⟩
    rw [heq]
    exact getInput_setInput s.newItemInputs category ""

/-- C7 witness: the insert branch of the theorem applied to a concrete state with a
pending input for the Bread category. -/
theorem add_item_behavior_witness :
    addItem "u1" ⟨[], ["Bread"], [("Bread", " Milk ")], [], false, false, ""⟩ "Bread" =
      ({ (⟨[], ["Bread"], [("Bread", " Milk ")], [], false, false, ""⟩ :
            ComponentState) with
          newItemInputs := setInput [("Bread", " Milk ")] "Bread" "" },
        some { name := jsTrim (getInput [("Bread", " Milk ")] "Bread"),
               category := "Bread", needed := false, bought := false,
               user_id := "u1" }) ∧
    getInput (addItem "u1"
        ⟨[], ["Bread"], [("Bread", " Milk ")], [], false, false, ""⟩ "Bread").1.newItemInputs
      "Bread" = "" :=
  (add_item_behavior "u1" ⟨[], ["Bread"], [("Bread", " Milk ")], [], false, false, ""⟩
    "Bread").2 (by decide)

/-- Reduction of toggleNeeded when the local lookup finds an item. -/
theorem toggleNeeded_found (uid : String) (items : List Item) (id : Nat) (item : Item)
    (hfind : items.find? (fun i => i.id == id) = some item) :
    toggleNeeded uid items id
      = (items.map (applyNeededPatch uid id (!item.needed)),
        some { id := id, user_id := uid, needed := some (!item.needed),
               bought := none }) := by
  rw [toggleNeeded, hfind]

/-- The needed patch does not change row ids. -/
theorem applyNeededPatch_id (uid : String) (id : Nat) (value : Bool) (i : Item) :
    (applyNeededPatch uid id value i).id = i.id := by
  rw [applyNeededPatch]
  split <;> rfl

/-- Mapping an id-preserving function commutes with the lookup by id. -/
theorem find?_id_map (items : List Item) (id : Nat) (g : Item → Item)
    (hg : ∀ i, (g i).id = i.id) :
    (items.map g).find? (fun item => item.id == id)
      = (items.find? (fun item => item.id == id)).map g := by
  have hfun : ((fun item : Item => item.id == id) ∘ g)
      = (fun item : Item => item.id == id) := by
    funext i
    simp [Function.comp, hg i]
  rw [List.find?_map, hfun]

/-- C8: applying toggleNeeded twice through the same id returns the needed flag of the
item looked up by that id to its original value. -/
theorem toggle_needed_twice_round_trip (uid : String) (items : List Item) (id : Nat)
    (h : (items.find? (fun item => item.id == id)).isSome = true) :
    ((toggleNeeded uid (toggleNeeded uid items id).1 id).1.find?
        (fun item => item.id == id)).map Item.needed
      = (items.find? (fun item => item.id == id)).map Item.needed := by
  obtain ⟨item, hfind⟩ := Option.isSome_iff_exists.mp h
  have hid : (item.id == id) = true := by simpa using List.find?_some hfind
  rw [toggleNeeded_found uid items id item hfind]
  have hfind2 : (items.map (applyNeededPatch uid id (!item.needed))).find?
      (fun i => i.id == id) = some (applyNeededPatch uid id (!item.needed) item) := by
    rw [find?_id_map items id _ (applyNeededPatch_id uid id _), hfind]
    rfl
  rw [toggleNeeded_found uid _ id _ hfind2]
  rw [find?_id_map _ id _ (applyNeededPatch_id uid id _),
    find?_id_map _ id _ (applyNeededPatch_id uid id _), hfind]
  simp only [Option.map_some', Option.map_map]
  by_cases hu : (item.user_id == uid) = true
  · simp [applyNeededPatch, hid, hu, Function.comp]
  · simp [applyNeededPatch, hid, hu, Function.comp]

/-- C8 witness: the round trip on a concrete one-item list whose item has the looked-up
id. -/
theorem toggle_needed_twice_round_trip_witness :
    ((toggleNeeded "u1"
        (toggleNeeded "u1" [⟨1, "Milk", "Bread", true, false, "u1"⟩] 1).1 1).1.find?
        (fun item => item.id == 1)).map Item.needed
      = (([⟨1, "Milk", "Bread", true, false, "u1"⟩] : List Item).find?
          (fun item => item.id == 1)).map Item.needed :=
  toggle_needed_twice_round_trip "u1" [⟨1, "Milk", "Bread", true, false, "u1"⟩] 1
    (by decide)

/-- C10: when no local item has the requested id, toggleNeeded and toggleBought issue no
update call and leave the item list unchanged. -/
theorem toggle_missing_id_noop (uid : String) (items : List Item) (id : Nat)
    (h : ∀ item ∈ items, item.id ≠ id) :
    toggleNeeded uid items id = (items, none) ∧
    toggleBought uid items id = (items, none) := by
  have hfind : items.find? (fun item => item.id == id) = none := by
    rw [List.find?_eq_none]
    intro x hx
    simpa using h x hx
  constructor
  · rw [toggleNeeded, hfind]
  · rw [toggleBought, hfind]

/-- C10 witness: the theorem applied to a concrete one-item list and an id that matches
no item. -/
theorem toggle_missing_id_noop_witness :
    toggleNeeded "u1" [⟨1, "Milk", "Bread", true, false, "u1"⟩] 2 =
      ([⟨1, "Milk", "Bread", true, false, "u1"⟩], none) ∧
    toggleBought "u1" [⟨1, "Milk", "Bread", true, false, "u1"⟩] 2 =
      ([⟨1, "Milk", "Bread", true, false, "u1"⟩], none) :=
  toggle_missing_id_noop "u1" [⟨1, "Milk", "Bread", true, false, "u1"⟩] 2 (by decide)

end ShoppingApp
